import Mathlib

/-!
Shallow embedding of the Douban API endpoint layer
(`app/api/endpoints/douban.py`) of MoviePilot.

Strings are modelled as `List Char` (`Str`); Python truthiness of a
possibly-missing string is "present and non-empty".  Optional/missing JSON
fields are `Option`.  A Python `ValueError` raised by a constructor is
modelled with `Except`.
-/

namespace Douban

abbrev Str := List Char

/-- Python truthiness of an optional string: not `None` and non-empty. -/
def truthyStr : Option Str → Bool
  | none => false
  | some s => !s.isEmpty

/-- Sentinel `"movie_large.jpg"`, a placeholder poster filename (source line 98/118). -/
def movieLargeSentinel : Str := "movie_large.jpg".toList

/-- Sentinel `"tv_normal.png"`, a placeholder poster filename (source line 99). -/
def tvNormalPngSentinel : Str := "tv_normal.png".toList

/-- Sentinel `"tv_normal.jpg"`, a placeholder poster filename (source line 119). -/
def tvNormalJpgSentinel : Str := "tv_normal.jpg".toList

/-- Sentinel `"tv_large.jpg"`, a placeholder poster filename (source line 120). -/
def tvLargeSentinel : Str := "tv_large.jpg".toList

/-- The sentinel substrings checked by `douban_movies` (lines 98-99). -/
def movieSentinels : List Str := [movieLargeSentinel, tvNormalPngSentinel]

/-- The sentinel substrings checked by `douban_tvs` (lines 118-120). -/
def tvSentinels : List Str := [movieLargeSentinel, tvNormalJpgSentinel, tvLargeSentinel]

/-- A raw upstream media payload, restricted to the fields the endpoints
inspect. -/
structure RawMedia where
  title : Option Str
  poster : Option Str
  deriving Repr, DecidableEq

/-- The canonical `MediaInfo` entity, restricted to the fields the endpoints
inspect. -/
structure Media where
  title : Option Str
  poster_path : Option Str
  deriving Repr, DecidableEq

/-- Modelled from the spec: the `MediaInfo(douban_info=...)` normalizer
(`app.core.context.MediaInfo`) is not part of the visible source; per
spec §4.4 the "raw poster field maps to `poster_path`; absence of a poster
field yields `null`", and the title is carried through. -/
def MediaInfo.fromDouban (raw : RawMedia) : Media :=
  { title := raw.title, poster_path := raw.poster }

/-- Modelled from the spec: `MediaInfo.to_dict()` is the serialization layer,
out of scope per spec §6; it is treated as the identity on the canonical
entity. -/
def Media.toDict (m : Media) : Media := m

/-- `schemas.MediaInfo()` with no arguments: the empty canonical media object
(all fields null/default). -/
def Media.empty : Media := { title := none, poster_path := none }

/-- Python's `needle in haystack` substring test. -/
def containsSub (needle : Str) : Str → Bool
  | [] => needle.isEmpty
  | c :: rest => needle.isPrefixOf (c :: rest) || containsSub needle rest

/-- The poster condition of the listing comprehensions (lines 96-99 and
116-120): the poster is truthy and none of the given sentinels occurs in
it as a substring. -/
def posterKeep (sentinels : List Str) (poster : Option Str) : Bool :=
  match poster with
  | none => false
  | some p => !p.isEmpty && sentinels.all fun s => !(containsSub s p)

/-- Endpoint `movie_showing` (source lines 68-79): normalizes every upstream movie and
returns all of them, with no poster filtering. -/
def movie_showing (movies : List RawMedia) : List Media :=
  if movies.isEmpty then []
  else
    let medias := movies.map MediaInfo.fromDouban
    medias.map Media.toDict

/-- Endpoint `douban_movies` (source lines 82-99): normalizes every upstream movie and
keeps those whose poster is truthy and avoids the movie sentinels. -/
def douban_movies (movies : List RawMedia) : List Media :=
  if movies.isEmpty then []
  else
    let medias := movies.map MediaInfo.fromDouban
    ((medias.filter fun media => posterKeep movieSentinels media.poster_path).map
      Media.toDict)

/-- Endpoint `douban_tvs` (source lines 102-120): normalizes every upstream show and
keeps those whose poster is truthy and avoids the TV sentinels. -/
def douban_tvs (tvs : List RawMedia) : List Media :=
  if tvs.isEmpty then []
  else
    let medias := tvs.map MediaInfo.fromDouban
    ((medias.filter fun media => posterKeep tvSentinels media.poster_path).map
      Media.toDict)

/-- Endpoint `douban_info` (source lines 233-243): returns the normalized media when
the chain lookup succeeds, and the empty canonical object otherwise. -/
def douban_info (doubaninfo : Option RawMedia) : Media :=
  match doubaninfo with
  | some d => (MediaInfo.fromDouban d).toDict
  | none => Media.empty

/-- The full-width colon `：` used as separator (source line 44). -/
def fullwidthColon : Str := "：".toList

/-- Raw `cover_img` sub-object of a raw person payload. -/
structure RawPersonCover where
  url : Option Str
  deriving Repr, DecidableEq

/-- Raw `extra` sub-object of a raw person payload. -/
structure RawPersonExtra where
  info : Option (List (List Str))
  short_info : Option Str
  deriving Repr, DecidableEq

/-- A raw upstream person payload, restricted to the fields `douban_person`
reads. -/
structure RawPerson where
  id : Option Str
  title : Option Str
  cover_img : Option RawPersonCover
  extra : Option RawPersonExtra
  deriving Repr, DecidableEq

/-- The canonical `MediaPerson` entity, restricted to the fields the
endpoints populate. -/
structure MediaPerson where
  source : Str
  id : Option Str
  name : Option Str
  avatar : Option Str
  biography : Option Str
  also_known_as : List Str
  deriving Repr, DecidableEq

/-- Value `schemas.MediaPerson(source='douban')`: the empty canonical person, with
only the provider name set. -/
def MediaPerson.emptyDouban : MediaPerson :=
  { source := "douban".toList, id := none, name := none, avatar := none,
    biography := none, also_known_as := [] }

/-- Endpoint `douban_person` (source lines 31-51): on a missing payload returns the
empty canonical person; otherwise maps the payload fields, deriving
`also_known_as` by joining each raw extra-info entry with `：`. -/
def douban_person (personinfo : Option RawPerson) : MediaPerson :=
  match personinfo with
  | none => MediaPerson.emptyDouban
  | some info =>
    let infos : Option (List (List Str)) := info.extra.bind RawPersonExtra.info
    let also_known_as : List Str :=
      match infos with
      | some l => if l.isEmpty then [] else l.map (List.intercalate fullwidthColon)
      | none => []
    { source := "douban".toList
      id := info.id
      name := info.title
      avatar := (info.cover_img.bind RawPersonCover.url)
      biography := (info.extra.bind RawPersonExtra.short_info)
      also_known_as := also_known_as }

/-- The literal marker `"?subject_id="` (source line 209). -/
def subjectIdMarker : Str := "?subject_id=".toList

/-- Finds the first occurrence of `sep` in `s`: returns the part before the
occurrence and the part after it, or `none` when `sep` does not occur. -/
def findSplit (sep : Str) : Str → Option (Str × Str)
  | [] => none
  | c :: rest =>
    if sep.isPrefixOf (c :: rest) then some ([], (c :: rest).drop sep.length)
    else
      match findSplit sep rest with
      | none => none
      | some (pre, post) => some (c :: pre, post)

/-- Function `findSplit` decomposes its input around the separator. -/
theorem findSplit_some_decomp (sep : Str) :
    ∀ (s pre post : Str), findSplit sep s = some (pre, post) →
      s = pre ++ sep ++ post := by
  intro s
  induction s with
  | nil => intro pre post h; simp [findSplit] at h
  | cons c rest ih =>
    intro pre post h
    simp only [findSplit] at h
    by_cases hp : sep.isPrefixOf (c :: rest)
    · rw [if_pos hp] at h
      obtain ⟨h1, h2⟩ := Prod.mk.injEq .. ▸ Option.some.injEq .. ▸ h
      have hpre : sep <+: (c :: rest) := by
        exact  List.isPrefixOf_iff_prefix.mp hp
      obtain ⟨t, ht⟩ := hpre
      subst h1
      rw [← h2, ← ht, List.nil_append, List.drop_left]
    · rw [if_neg hp] at h
      cases hfs : findSplit sep rest with
      | none => rw [hfs] at h; simp at h
      | some pp =>
        obtain ⟨pre', post'⟩ := pp
        rw [hfs] at h
        obtain ⟨h1, h2⟩ := Prod.mk.injEq .. ▸ Option.some.injEq .. ▸ h
        have := ih pre' post' hfs
        subst this
        rw [← h1, ← h2]
        simp

/-- Python's `s.split('?subject_id=')`, the list of segments of `s` between
consecutive (greedy, left-to-right) occurrences of the marker. -/
def splitSubjectId (s : Str) : List Str :=
  match hfs : findSplit subjectIdMarker s with
  | none => [s]
  | some (pre, post) => pre :: splitSubjectId post
termination_by s.length
decreasing_by
  have hdec := findSplit_some_decomp subjectIdMarker s pre post hfs
  have : s.length = pre.length + subjectIdMarker.length + post.length := by
    rw [hdec]; simp [Nat.add_assoc]
  have hm : 0 < subjectIdMarker.length := by decide
  omega

/-- Expression `doubaninfo.get('uri', '').split('?subject_id=')[-1]` (source line 209):
the last segment of the split. -/
def extractId (uri : Str) : Str := (splitSubjectId uri).getLastD []

/-- A raw upstream credit entry, restricted to the fields the endpoint
reads. -/
structure RawCredit where
  id : Option Str
  uri : Option Str
  name : Option Str
  deriving Repr, DecidableEq

/-- The per-entry transformation of `douban_credits` (source lines 208-210):
the entry's `id` is overwritten from the `uri` and the entry becomes a
`MediaPerson` with source `douban`. -/
def creditPerson (c : RawCredit) : MediaPerson :=
  { source := "douban".toList
    id := some (extractId (c.uri.getD []))
    name := c.name
    avatar := none
    biography := none
    also_known_as := [] }

/-- Modelled from the spec: the `MediaType` enum (`app.schemas.MediaType`) is
not part of the visible source. The endpoint docstrings name the media-type
values `电影` (movie) and `电视剧` (TV), and spec §9 describes the existing
branching as reaching "a silent empty-list fallback" for unrecognized
media-type values — so constructing the enum succeeds for at least one
further value that selects neither media-type branch. That extra member is
modelled as `unknown`, with the provider's conventional string value
`未知` ("unknown"). -/
inductive MediaType where
  | movie
  | tv
  | unknown
  deriving Repr, DecidableEq

/-- Modelled from the spec: `MediaType(type_name)` — `Except.error` models the
`ValueError` raised on a string that is no member's value. -/
def MediaType.ofString (s : Str) : Except Str MediaType :=
  if s = "电影".toList then .ok .movie
  else if s = "电视剧".toList then .ok .tv
  else if s = "未知".toList then .ok .unknown
  else .error s

/-- Tail of `douban_credits` (source lines 204-210): the falsy check on the
selected chain result, then the per-entry id rewrite. -/
def creditsResult (doubaninfos : Option (List RawCredit)) :
    Except Str (List MediaPerson) :=
  match doubaninfos with
  | none => Except.ok []
  | some infos =>
    if infos.isEmpty then Except.ok []
    else Except.ok (infos.map creditPerson)

/-- Endpoint `douban_credits` (source lines 189-210): picks the chain result
for the parsed media type — the `else: return []` branch (lines 202-203)
runs for a successfully constructed media type that is neither movie nor
TV — returns `[]` on a falsy result, and otherwise rewrites each entry's id
from its `uri` before building the `MediaPerson` list. -/
def douban_credits (type_name : Str)
    (movieCredits tvCredits : Option (List RawCredit)) :
    Except Str (List MediaPerson) :=
  match MediaType.ofString type_name with
  | .error e => .error e
  | .ok MediaType.movie => creditsResult movieCredits
  | .ok MediaType.tv => creditsResult tvCredits
  | .ok MediaType.unknown => Except.ok []

/-- Tail of `douban_recommend` (source lines 227-230): the falsy check on
the selected chain result, then normalization. -/
def recommendResult (doubaninfos : Option (List RawMedia)) :
    Except Str (List Media) :=
  match doubaninfos with
  | none => Except.ok []
  | some infos =>
    if infos.isEmpty then Except.ok []
    else Except.ok (infos.map fun d => (MediaInfo.fromDouban d).toDict)

/-- Endpoint `douban_recommend` (source lines 213-230): picks the chain
result for the parsed media type — the `else: return []` branch
(lines 225-226) runs for a successfully constructed media type that is
neither movie nor TV — returns `[]` on a falsy result, and otherwise
normalizes each entry. -/
def douban_recommend (type_name : Str)
    (movieRecs tvRecs : Option (List RawMedia)) :
    Except Str (List Media) :=
  match MediaType.ofString type_name with
  | .error e => .error e
  | .ok MediaType.movie => recommendResult movieRecs
  | .ok MediaType.tv => recommendResult tvRecs
  | .ok MediaType.unknown => Except.ok []

/-- Function `containsSub` decides the substring (infix) relation. -/
theorem containsSub_eq_true_iff (n : Str) :
    ∀ s : Str, containsSub n s = true ↔ n <:+: s := by
  intro s
  induction s with
  | nil =>
    simp [containsSub, List.isEmpty_iff, List.infix_nil]
  | cons c rest ih =>
    simp [containsSub, List.infix_cons_iff, ih, List.isPrefixOf_iff_prefix]

/-- Function `findSplit` returns `none` exactly when the separator does not occur. -/
theorem findSplit_eq_none_iff (sep : Str) (hsep : sep ≠ []) :
    ∀ s : Str, findSplit sep s = none ↔ ¬ sep <:+: s := by
  intro s
  induction s with
  | nil => simp [findSplit, List.infix_nil, hsep]
  | cons c rest ih =>
    simp only [findSplit]
    by_cases hp : sep.isPrefixOf (c :: rest)
    · rw [if_pos hp]
      have : sep <+: (c :: rest) :=  List.isPrefixOf_iff_prefix.mp hp
      simp [ List.infix_cons_iff, this]
    · rw [if_neg hp]
      have hnp : ¬ sep <+: (c :: rest) := fun hc =>
        hp ( List.isPrefixOf_iff_prefix.mpr hc)
      cases hfs : findSplit sep rest with
      | none =>
        have : ¬ sep <:+: rest := (ih).mp hfs
        simp [ List.infix_cons_iff, hnp, this]
      | some pp =>
        have : sep <:+: rest := by
          by_contra hcon
          rw [← ih] at hcon
          rw [hcon] at hfs
          cases hfs
        simp [ List.infix_cons_iff, this]

/-- The occurrence found by `findSplit` is the leftmost one. -/
theorem findSplit_min (sep : Str) :
    ∀ (s pre post : Str), findSplit sep s = some (pre, post) →
      ∀ a b : Str, s = a ++ sep ++ b → pre.length ≤ a.length := by
  intro s
  induction s with
  | nil => intro pre post h; simp [findSplit] at h
  | cons c rest ih =>
    intro pre post h a b hab
    simp only [findSplit] at h
    by_cases hp : sep.isPrefixOf (c :: rest)
    · rw [if_pos hp] at h
      obtain ⟨h1, _⟩ := Prod.mk.injEq .. ▸ Option.some.injEq .. ▸ h
      rw [← h1]
      exact Nat.zero_le _
    · rw [if_neg hp] at h
      cases hfs : findSplit sep rest with
      | none => rw [hfs] at h; cases h
      | some pp =>
        obtain ⟨pre', post'⟩ := pp
        rw [hfs] at h
        obtain ⟨h1, h2⟩ := Prod.mk.injEq .. ▸ Option.some.injEq .. ▸ h
        cases a with
        | nil =>
          exfalso
          apply hp
          apply  List.isPrefixOf_iff_prefix.mpr
          rw [List.nil_append] at hab
          exact ⟨b, by rw [← hab]⟩
        | cons a₀ a' =>
          have hca : c = a₀ ∧ rest = a' ++ sep ++ b := by
            have : c :: rest = a₀ :: (a' ++ sep ++ b) := by simpa using hab
            exact ⟨(List.cons.injEq .. ▸ this).1, (List.cons.injEq .. ▸ this).2⟩
          have := ih pre' post' hfs a' b hca.2
          rw [← h1]
          simpa using Nat.succ_le_succ this

/-- The split list is never empty. -/
theorem splitSubjectId_ne_nil (s : Str) : splitSubjectId s ≠ [] := by
  rw [splitSubjectId]
  split <;> simp

/-- When the marker does not occur, the split is the singleton list. -/
theorem splitSubjectId_no_marker (s : Str)
    (h : ¬ subjectIdMarker <:+: s) : splitSubjectId s = [s] := by
  have hnone : findSplit subjectIdMarker s = none :=
    (findSplit_eq_none_iff subjectIdMarker (by decide) s).mpr h
  rw [splitSubjectId]
  split
  · rfl
  · next pre post hfs =>
      rw [hnone] at hfs
      cases hfs

/-- Function `getLastD` ignores its default on a non-empty list. -/
theorem getLastD_of_ne_nil {α : Type} (l : List α) (hne : l ≠ []) (x y : α) :
    l.getLastD x = l.getLastD y := by
  cases l with
  | nil => exact absurd rfl hne
  | cons c rest => rw [List.getLastD_cons, List.getLastD_cons]

/-- When the marker does not occur in the string, `extractId` returns the
string unchanged. -/
theorem extractId_no_marker (s : Str)
    (h : ¬ subjectIdMarker <:+: s) : extractId s = s := by
  rw [extractId, splitSubjectId_no_marker s h]
  rfl

/-- The marker has no non-trivial self-overlap: no proper non-empty suffix of
it is also a prefix of it. -/
theorem subjectIdMarker_no_overlap :
    ∀ k, k < subjectIdMarker.length → 0 < k →
      ¬ (subjectIdMarker.drop k <+: subjectIdMarker) := by decide

/-- Key extraction lemma: on a string of the form `a ++ marker ++ b` where
the marker does not occur in `b`, `extractId` returns exactly `b` — the
substring after the last occurrence of the marker. -/
theorem extractId_append_aux :
    ∀ (n : Nat) (a b : Str), a.length ≤ n → ¬ subjectIdMarker <:+: b →
      extractId (a ++ subjectIdMarker ++ b) = b := by
  intro n
  induction n using Nat.strong_induction_on with
  | _ n ih =>
    intro a b ha hb
    cases hfs : findSplit subjectIdMarker (a ++ subjectIdMarker ++ b) with
    | none =>
      exfalso
      have hni : ¬ subjectIdMarker <:+: (a ++ subjectIdMarker ++ b) :=
        (findSplit_eq_none_iff subjectIdMarker (by decide) _).mp hfs
      exact hni ⟨a, b, rfl⟩
    | some pp =>
      obtain ⟨pre, post⟩ := pp
      have hdec := findSplit_some_decomp subjectIdMarker _ pre post hfs
      have hmin := findSplit_min subjectIdMarker _ pre post hfs a b rfl
      have hstep : splitSubjectId (a ++ subjectIdMarker ++ b) =
          pre :: splitSubjectId post := by
        rw [splitSubjectId]
        split
        · next hfs' =>
            rw [hfs] at hfs'
            cases hfs'
        · next pre' post' hfs' =>
            rw [hfs] at hfs'
            obtain ⟨h1, h2⟩ := Prod.mk.injEq .. ▸ Option.some.injEq .. ▸ hfs'
            rw [h1, h2]
      have hlast : extractId (a ++ subjectIdMarker ++ b) =
          (splitSubjectId post).getLastD [] := by
        rw [extractId, hstep, List.getLastD_cons]
        exact getLastD_of_ne_nil _ (splitSubjectId_ne_nil post) pre []
      have heq : pre ++ (subjectIdMarker ++ post) =
          a ++ (subjectIdMarker ++ b) := by
        have := hdec.symm
        simpa [List.append_assoc] using this
      rcases List.append_eq_append_iff.mp heq with ⟨u, hu1, hu2⟩ | ⟨v, hv1, hv2⟩
      · -- a = pre ++ u, marker ++ post = u ++ (marker ++ b)
        cases u with
        | nil =>
          have hu2' : subjectIdMarker ++ post = subjectIdMarker ++ b := by
            simpa using hu2
          have hpost : post = b := List.append_cancel_left hu2'
          rw [hlast, hpost, splitSubjectId_no_marker b hb]
          rfl
        | cons u₀ u' =>
          rcases Nat.lt_or_ge (u₀ :: u').length subjectIdMarker.length with
            hul | hul
          · -- a short non-empty `u` would force a self-overlap of the marker
            exfalso
            set u : Str := u₀ :: u' with hu
            have htake : (subjectIdMarker ++ post).take subjectIdMarker.length
                = subjectIdMarker := List.take_left _ _
            have htake2 : (u ++ (subjectIdMarker ++ b)).take
                subjectIdMarker.length =
                u ++ subjectIdMarker.take (subjectIdMarker.length - u.length)
                := by
              rw [List.take_append_eq_append_take,
                List.take_of_length_le (Nat.le_of_lt hul),
                List.take_append_of_le_length (by omega)]
            have hmarker : subjectIdMarker =
                u ++ subjectIdMarker.take (subjectIdMarker.length - u.length)
                := by
              conv_lhs => rw [← htake]
              rw [hu2]
              exact htake2
            have hdrop : subjectIdMarker.drop u.length =
                subjectIdMarker.take (subjectIdMarker.length - u.length) := by
              conv_lhs => rw [hmarker]
              rw [List.drop_left]
            have hpref : subjectIdMarker.drop u.length <+: subjectIdMarker :=
              hdrop ▸ List.take_prefix _ _
            exact subjectIdMarker_no_overlap u.length hul (by simp [hu])
              hpref
          · -- the marker is a prefix of `u`: recurse on the shorter tail
            set u : Str := u₀ :: u' with hu
            have htaku : u.take subjectIdMarker.length = subjectIdMarker := by
              have h1 : (subjectIdMarker ++ post).take subjectIdMarker.length
                  = subjectIdMarker := List.take_left _ _
              have h2 : (u ++ (subjectIdMarker ++ b)).take
                  subjectIdMarker.length = u.take subjectIdMarker.length :=
                List.take_append_of_le_length hul
              rw [← h2, ← hu2, h1]
            set w : Str := u.drop subjectIdMarker.length with hw
            have huw : u = subjectIdMarker ++ w := by
              rw [← htaku, hw, List.take_append_drop]
            have hpostw : post = w ++ subjectIdMarker ++ b := by
              have : subjectIdMarker ++ post =
                  subjectIdMarker ++ (w ++ (subjectIdMarker ++ b)) := by
                rw [hu2, huw, List.append_assoc]
              simpa [List.append_assoc] using List.append_cancel_left this
            have hwlen : w.length < n := by
              have halen : a.length =
                  pre.length + subjectIdMarker.length + w.length := by
                rw [hu1, huw]; simp [Nat.add_assoc]
              have hm : 0 < subjectIdMarker.length := by decide
              omega
            have hrec := ih w.length hwlen w b (Nat.le_refl _) hb
            rw [hlast, hpostw]
            rw [extractId] at hrec
            exact hrec
      · -- pre = a ++ v, with pre at most as long as a: v = [] and post = b
        have hv0 : v = [] := by
          have : pre.length = a.length + v.length := by rw [hv1]; simp
          have := hmin
          have hlen : v.length = 0 := by omega
          exact List.length_eq_zero.mp hlen
        have hpre : pre = a := by rw [hv1, hv0, List.append_nil]
        have hpost : post = b := by
          have : subjectIdMarker ++ b = subjectIdMarker ++ post := by
            simpa [hv0] using hv2
          simpa using (List.append_cancel_left this).symm
        rw [hlast, hpost, splitSubjectId_no_marker b hb]
        rfl

/-- Main extraction fact: `extractId (a ++ marker ++ b) = b` whenever the marker does not occur in
`b`. -/
theorem extractId_append (a b : Str) (hb : ¬ subjectIdMarker <:+: b) :
    extractId (a ++ subjectIdMarker ++ b) = b :=
  extractId_append_aux a.length a b (Nat.le_refl _) hb

/-- Unfolded form of `douban_movies`: normalization, then the movie-sentinel
filter, then serialization. -/
theorem douban_movies_eq_filter (movies : List RawMedia) :
    douban_movies movies =
      ((movies.map MediaInfo.fromDouban).filter
        (fun media => posterKeep movieSentinels media.poster_path)).map
        Media.toDict := by
  cases movies <;> rfl

/-- Unfolded form of `douban_tvs`: normalization, then the TV-sentinel
filter, then serialization. -/
theorem douban_tvs_eq_filter (tvs : List RawMedia) :
    douban_tvs tvs =
      ((tvs.map MediaInfo.fromDouban).filter
        (fun media => posterKeep tvSentinels media.poster_path)).map
        Media.toDict := by
  cases tvs <;> rfl

/-- Unfolded form of `movie_showing`: normalization and serialization only,
with no filtering. -/
theorem movie_showing_eq_map (movies : List RawMedia) :
    movie_showing movies =
      (movies.map MediaInfo.fromDouban).map Media.toDict := by
  cases movies <;> rfl

/-- A poster containing one of the given sentinels fails the keep check. -/
theorem posterKeep_eq_false_of_contains (sentinels : List Str) (p s : Str)
    (hs : s ∈ sentinels) (hinf : s <:+: p) :
    posterKeep sentinels (some p) = false := by
  have hc : containsSub s p = true := (containsSub_eq_true_iff s p).mpr hinf
  have hall : sentinels.all (fun s => !(containsSub s p)) = false := by
    apply List.all_eq_false.mpr
    exact ⟨s, hs, by simp [hc]⟩
  simp [posterKeep, hall]

/-- A non-empty poster avoiding every sentinel passes the keep check. -/
theorem posterKeep_eq_true (sentinels : List Str) (p : Str) (hne : p ≠ [])
    (h : ∀ s ∈ sentinels, ¬ s <:+: p) :
    posterKeep sentinels (some p) = true := by
  have hall : sentinels.all (fun s => !(containsSub s p)) = true := by
    apply List.all_eq_true.mpr
    intro s hs
    have hcf : containsSub s p = false := by
      cases hcs : containsSub s p
      · rfl
      · exact absurd ((containsSub_eq_true_iff s p).mp hcs) (h s hs)
    simp [hcf]
  simp [posterKeep, List.isEmpty_iff, hne, hall]

/-- A poster passing the keep check is present and non-empty. -/
theorem posterKeep_true_poster (sentinels : List Str) (poster : Option Str)
    (h : posterKeep sentinels poster = true) :
    ∃ p, poster = some p ∧ p ≠ [] := by
  cases poster with
  | none => simp [posterKeep] at h
  | some p =>
    refine ⟨p, rfl, ?_⟩
    intro hp
    subst hp
    simp [posterKeep] at h

/-- A concrete upstream entry whose poster is the movie placeholder
sentinel. -/
def placeholderMovie : RawMedia :=
  { title := some "fake".toList,
    poster := some "https://img2.doubanio.com/f/movie/movie_large.jpg".toList }

/-- A concrete upstream entry with a real poster path. -/
def realMovie : RawMedia :=
  { title := some "real".toList,
    poster := some "https://img2.doubanio.com/view/photo/p2561716440.jpg".toList }

/-- C1: in the movie discover listing `douban_movies`, an upstream entry whose
normalized `poster_path` contains the movie sentinel `movie_large.jpg` is
excluded from the returned list (dropping it from the input leaves the output
unchanged), while an otherwise-identical entry whose `poster_path` is a real
non-empty, non-sentinel path is included in the output. -/
theorem douban_movies_excludes_movie_sentinel
    (pre post : List RawMedia) (e : RawMedia) (p : Str)
    (hp : (MediaInfo.fromDouban e).poster_path = some p) :
    (movieLargeSentinel <:+: p →
      douban_movies (pre ++ e :: post) = douban_movies (pre ++ post)) ∧
    (p ≠ [] → ¬ movieLargeSentinel <:+: p → ¬ tvNormalPngSentinel <:+: p →
      Media.toDict (MediaInfo.fromDouban e) ∈
        douban_movies (pre ++ e :: post)) := by
  constructor
  · intro hinf
    have hkf : posterKeep movieSentinels
        (MediaInfo.fromDouban e).poster_path = false := by
      rw [hp]
      exact posterKeep_eq_false_of_contains _ p movieLargeSentinel
        (by simp [movieSentinels]) hinf
    rw [douban_movies_eq_filter, douban_movies_eq_filter]
    simp [List.filter_append, List.filter_cons, hkf]
  · intro hne h1 h2
    have hkt : posterKeep movieSentinels
        (MediaInfo.fromDouban e).poster_path = true := by
      rw [hp]
      apply posterKeep_eq_true _ _ hne
      intro s hs
      have : s = movieLargeSentinel ∨ s = tvNormalPngSentinel := by
        simpa [movieSentinels] using hs
      rcases this with rfl | rfl
      · exact h1
      · exact h2
    rw [douban_movies_eq_filter]
    refine List.mem_map_of_mem _ (List.mem_filter.mpr ⟨?_, hkt⟩)
    exact List.mem_map_of_mem _ (by simp)

/-- C1 witness: the concrete placeholder entry vanishes from the movie
listing, and the concrete real-poster entry is returned by it. -/
theorem douban_movies_excludes_movie_sentinel_witness :
    douban_movies [placeholderMovie] = [] ∧
    Media.toDict (MediaInfo.fromDouban realMovie) ∈
      douban_movies [realMovie] := by
  constructor
  · have h := (douban_movies_excludes_movie_sentinel [] [] placeholderMovie _
      rfl).1 (by decide)
    exact h.trans rfl
  · exact (douban_movies_excludes_movie_sentinel [] [] realMovie _ rfl).2
      (by decide) (by decide) (by decide)

/-- C2 counterexample: the showing-style listing `movie_showing` does not
filter placeholders — a normalized entry whose poster contains the movie
sentinel is still returned by `movie_showing`. -/
theorem movie_showing_keeps_placeholder :
    Media.toDict (MediaInfo.fromDouban placeholderMovie) ∈
      movie_showing [placeholderMovie] ∧
    movieLargeSentinel <:+:
      ((MediaInfo.fromDouban placeholderMovie).poster_path.getD []) := by
  constructor
  · decide
  · decide

/-- C2 amended: only the discover listings `douban_movies` and `douban_tvs`
apply the placeholder-sentinel filter (after normalization, before
returning), so each of their returned entries passes the corresponding keep
check; the showing-style listing `movie_showing` applies no placeholder
filter and returns every normalized entry. -/
theorem listing_placeholder_filter_amended :
    (∀ movies, douban_movies movies =
      ((movies.map MediaInfo.fromDouban).filter
        (fun media => posterKeep movieSentinels media.poster_path)).map
        Media.toDict) ∧
    (∀ tvs, douban_tvs tvs =
      ((tvs.map MediaInfo.fromDouban).filter
        (fun media => posterKeep tvSentinels media.poster_path)).map
        Media.toDict) ∧
    (∀ movies, movie_showing movies =
      (movies.map MediaInfo.fromDouban).map Media.toDict) ∧
    (∀ movies media, media ∈ douban_movies movies →
      posterKeep movieSentinels media.poster_path = true) ∧
    (∀ tvs media, media ∈ douban_tvs tvs →
      posterKeep tvSentinels media.poster_path = true) := by
  refine ⟨douban_movies_eq_filter, douban_tvs_eq_filter,
    movie_showing_eq_map, ?_, ?_⟩
  · intro movies media hmem
    rw [douban_movies_eq_filter] at hmem
    obtain ⟨m, hm, hmedia⟩ := List.mem_map.mp hmem
    obtain ⟨_, hkeep⟩ := List.mem_filter.mp hm
    rw [← hmedia]
    exact hkeep
  · intro tvs media hmem
    rw [douban_tvs_eq_filter] at hmem
    obtain ⟨m, hm, hmedia⟩ := List.mem_map.mp hmem
    obtain ⟨_, hkeep⟩ := List.mem_filter.mp hm
    rw [← hmedia]
    exact hkeep

/-- C2 amended witness: the amended statement at concrete inputs — the real
entry returned by `douban_movies` passes the movie keep check. -/
theorem listing_placeholder_filter_amended_witness :
    posterKeep movieSentinels
      (Media.toDict (MediaInfo.fromDouban realMovie)).poster_path = true := by
  exact (listing_placeholder_filter_amended).2.2.2.1 [realMovie]
    (Media.toDict (MediaInfo.fromDouban realMovie)) (by decide)

/-- C6: the single-item detail lookup `douban_info` returns the found media
regardless of its poster: the normalized entry is returned as-is, with
`poster_path` copied verbatim from the payload and no placeholder filtering
applied. -/
theorem douban_info_no_placeholder_filter (d : RawMedia) :
    douban_info (some d) = Media.toDict (MediaInfo.fromDouban d) ∧
    (douban_info (some d)).poster_path = d.poster := ⟨rfl, rfl⟩

/-- C7: the TV listing filters posters against exactly three sentinel
patterns while the movie listing filters against exactly two; the two
sentinel sets differ in both directions, and there are posters each filter
treats differently. -/
theorem sentinel_sets_asymmetric :
    movieSentinels.length = 2 ∧ tvSentinels.length = 3 ∧
    movieSentinels ≠ tvSentinels ∧
    tvNormalJpgSentinel ∈ tvSentinels ∧ tvNormalJpgSentinel ∉ movieSentinels ∧
    tvNormalPngSentinel ∈ movieSentinels ∧ tvNormalPngSentinel ∉ tvSentinels ∧
    posterKeep movieSentinels (some tvNormalJpgSentinel) = true ∧
    posterKeep tvSentinels (some tvNormalJpgSentinel) = false ∧
    posterKeep tvSentinels (some tvNormalPngSentinel) = true ∧
    posterKeep movieSentinels (some tvNormalPngSentinel) = false := by
  decide

/-- C8: every item returned by the discover listings `douban_movies` and
`douban_tvs` has a present, non-empty `poster_path`; entries whose poster is
null or the empty string never appear in the result. -/
theorem discover_listings_poster_nonempty (movies tvs : List RawMedia) :
    (∀ media ∈ douban_movies movies,
      ∃ p, media.poster_path = some p ∧ p ≠ []) ∧
    (∀ media ∈ douban_tvs tvs,
      ∃ p, media.poster_path = some p ∧ p ≠ []) := by
  constructor
  · intro media hmem
    rw [douban_movies_eq_filter] at hmem
    obtain ⟨m, hm, hmedia⟩ := List.mem_map.mp hmem
    obtain ⟨_, hkeep⟩ := List.mem_filter.mp hm
    rw [← hmedia]
    exact posterKeep_true_poster _ _ hkeep
  · intro media hmem
    rw [douban_tvs_eq_filter] at hmem
    obtain ⟨m, hm, hmedia⟩ := List.mem_map.mp hmem
    obtain ⟨_, hkeep⟩ := List.mem_filter.mp hm
    rw [← hmedia]
    exact posterKeep_true_poster _ _ hkeep

/-- C8 witness: the non-empty-poster fact applied to the concrete real entry
of the concrete movie listing. -/
theorem discover_listings_poster_nonempty_witness :
    ∃ p, (Media.toDict (MediaInfo.fromDouban realMovie)).poster_path =
      some p ∧ p ≠ [] := by
  exact (discover_listings_poster_nonempty [realMovie] []).1
    (Media.toDict (MediaInfo.fromDouban realMovie)) (by decide)

/-- Joining a two-element list with a separator yields
`first ++ sep ++ second`. -/
theorem intercalate_pair (s a b : Str) :
    List.intercalate s [a, b] = a ++ s ++ b := by
  simp [List.intercalate, List.intersperse, List.append_assoc]

/-- Successful tail results are the per-entry transformation mapped over the
selected chain result. -/
theorem creditsResult_ok (d : Option (List RawCredit))
    (ps : List MediaPerson) (hok : creditsResult d = Except.ok ps) :
    ps = (d.getD []).map creditPerson := by
  cases d with
  | none =>
    cases hok
    rfl
  | some infos =>
    dsimp only [creditsResult] at hok
    by_cases hemp : infos.isEmpty
    · rw [if_pos hemp] at hok
      cases hok
      rw [List.isEmpty_iff.mp hemp]
      rfl
    · rw [if_neg hemp] at hok
      cases hok
      rfl

/-- Successful results of `douban_credits`, by parsed media type: the
per-entry transformation mapped over the matching chain result for movie
and TV, and the empty list for the neither-branch member. -/
theorem douban_credits_ok_cases (tn : Str) (mc tc : Option (List RawCredit))
    (ps : List MediaPerson) (hok : douban_credits tn mc tc = Except.ok ps) :
    (MediaType.ofString tn = Except.ok MediaType.movie →
      ps = (mc.getD []).map creditPerson) ∧
    (MediaType.ofString tn = Except.ok MediaType.tv →
      ps = (tc.getD []).map creditPerson) ∧
    (MediaType.ofString tn = Except.ok MediaType.unknown → ps = []) := by
  unfold douban_credits at hok
  split at hok
  · cases hok
  · next hmt =>
    refine ⟨fun _ => creditsResult_ok mc ps hok, fun hcon => ?_, fun hcon => ?_⟩
    · rw [hmt] at hcon
      injection hcon with h
      cases h
    · rw [hmt] at hcon
      injection hcon with h
      cases h
  · next hmt =>
    refine ⟨fun hcon => ?_, fun _ => creditsResult_ok tc ps hok, fun hcon => ?_⟩
    · rw [hmt] at hcon
      injection hcon with h
      cases h
    · rw [hmt] at hcon
      injection hcon with h
      cases h
  · next hmt =>
    injection hok with h
    refine ⟨fun hcon => ?_, fun hcon => ?_, fun _ => h.symm⟩
    · rw [hmt] at hcon
      injection hcon with h2
      cases h2
    · rw [hmt] at hcon
      injection hcon with h2
      cases h2

/-- A concrete raw credit entry carrying a composite uri. -/
def creditSample : RawCredit :=
  { id := some "999".toList,
    uri := some
      "douban://douban.com/celebrity/1316132?subject_id=27503705".toList,
    name := some "someone".toList }

/-- C3: every person returned by `douban_credits` (either media type) carries
an id computed from the entry's `uri` by `extractId`, which returns the
substring after the last occurrence of the literal marker `?subject_id=`,
and returns the uri unchanged when the marker is absent — no exception in
either case.  A successful result is exactly the per-entry transformation
mapped over the chain result of the parsed media type (and empty for the
neither-branch member, which returns no entries). -/
theorem douban_credits_id_from_uri
    (tn : Str) (mc tc : Option (List RawCredit)) (ps : List MediaPerson)
    (hok : douban_credits tn mc tc = Except.ok ps) :
    ((MediaType.ofString tn = Except.ok MediaType.movie →
       ps = (mc.getD []).map creditPerson) ∧
     (MediaType.ofString tn = Except.ok MediaType.tv →
       ps = (tc.getD []).map creditPerson) ∧
     (MediaType.ofString tn = Except.ok MediaType.unknown → ps = [])) ∧
    (∀ c : RawCredit,
      (creditPerson c).id = some (extractId (c.uri.getD []))) ∧
    (∀ uri : Str, ¬ subjectIdMarker <:+: uri → extractId uri = uri) ∧
    (∀ a b : Str, ¬ subjectIdMarker <:+: b →
      extractId (a ++ subjectIdMarker ++ b) = b) :=
  ⟨douban_credits_ok_cases tn mc tc ps hok, fun _ => rfl,
    extractId_no_marker, extractId_append⟩

/-- C3 witness: the two extraction examples from the spec, obtained through
the theorem at a concrete successful `douban_credits` call. -/
theorem douban_credits_id_from_uri_witness :
    extractId
      "douban://douban.com/celebrity/1316132?subject_id=27503705".toList =
      "27503705".toList ∧
    extractId "no-marker-here".toList = "no-marker-here".toList := by
  have h := douban_credits_id_from_uri "电影".toList (some [creditSample])
    none [creditPerson creditSample] rfl
  constructor
  · have h4 := h.2.2.2 "douban://douban.com/celebrity/1316132".toList
      "27503705".toList (by decide)
    have hsplit :
        "douban://douban.com/celebrity/1316132?subject_id=27503705".toList =
        "douban://douban.com/celebrity/1316132".toList ++ subjectIdMarker ++
          "27503705".toList := by decide
    rw [hsplit]
    exact h4
  · exact h.2.2.1 "no-marker-here".toList (by decide)

/-- A concrete raw person payload with two extra-info pairs. -/
def personSample : RawPerson :=
  { id := some "1316132".toList,
    title := some "简·多伊".toList,
    cover_img := some { url := some "https://img1.doubanio.com/avatar.jpg".toList },
    extra := some
      { info := some [["本名".toList, "Jane Doe".toList],
                      ["职业".toList, "Actor".toList]],
        short_info := some "short".toList } }

/-- C4: when the raw extra-info list is present and consists of
(label, value) pairs, `also_known_as` joins each pair with the full-width
colon, preserving source order. -/
theorem douban_person_also_known_as (rp : RawPerson)
    (pairs : List (Str × Str))
    (hinfo : rp.extra.bind RawPersonExtra.info =
      some (pairs.map fun q => [q.1, q.2])) :
    (douban_person (some rp)).also_known_as =
      pairs.map fun q => q.1 ++ fullwidthColon ++ q.2 := by
  have hred : (douban_person (some rp)).also_known_as =
      match rp.extra.bind RawPersonExtra.info with
      | some l =>
        if l.isEmpty then [] else l.map (List.intercalate fullwidthColon)
      | none => [] := rfl
  rw [hred, hinfo]
  cases pairs with
  | nil => rfl
  | cons q qs =>
    simp [List.map_map, Function.comp, intercalate_pair]

/-- C4 witness: the spec's concrete example, with raw pairs
`[["本名","Jane Doe"],["职业","Actor"]]`. -/
theorem douban_person_also_known_as_witness :
    (douban_person (some personSample)).also_known_as =
      ["本名：Jane Doe".toList, "职业：Actor".toList] := by
  have h := douban_person_also_known_as personSample
    [("本名".toList, "Jane Doe".toList), ("职业".toList, "Actor".toList)] rfl
  rw [h]
  decide

/-- C5: when the underlying lookup reports absence, the single-item lookups
return the explicit empty canonical object — `douban_person` the empty
person (only the provider source set) and `douban_info` the empty media —
and, being total functions, raise nothing past the lookup boundary. -/
theorem single_lookups_empty_on_absence
    (personLookup : Int → Option RawPerson)
    (mediaLookup : Str → Option RawMedia) (pid : Int) (did : Str)
    (hp : personLookup pid = none) (hm : mediaLookup did = none) :
    douban_person (personLookup pid) = MediaPerson.emptyDouban ∧
    douban_info (mediaLookup did) = Media.empty := by
  rw [hp, hm]
  exact ⟨rfl, rfl⟩

/-- C5 witness: the empty-object contract at a concrete always-absent
lookup. -/
theorem single_lookups_empty_on_absence_witness :
    douban_person none = MediaPerson.emptyDouban ∧
    douban_info none = Media.empty := by
  exact single_lookups_empty_on_absence (fun _ => none) (fun _ => none)
    0 [] rfl rfl

/-- A concrete raw credit entry with a pre-existing id and no uri. -/
def noUriCredit : RawCredit :=
  { id := some "199".toList,
    uri := none,
    name := some "noone".toList }

/-- C9: `douban_credits` overwrites the id of every returned person from the
entry's `uri` alone: the output id is `extractId` of the uri, an entry with
no uri at all gets the empty-string id, and the entry's pre-existing id
never influences the output. -/
theorem credits_id_overwritten (c : RawCredit) (v : Option Str)
    (huri : c.uri = none) :
    (creditPerson c).id = some [] ∧
    (∀ c' : RawCredit,
      (creditPerson c').id = some (extractId (c'.uri.getD []))) ∧
    (∀ c' : RawCredit, creditPerson { c' with id := v } = creditPerson c') := by
  refine ⟨?_, fun c' => rfl, fun c' => rfl⟩
  show some (extractId (c.uri.getD [])) = some []
  rw [huri]
  rw [show (none : Option Str).getD [] = [] from rfl]
  rw [extractId_no_marker [] (by decide)]

/-- C9 witness: a concrete entry with a pre-existing id but no uri comes out
with the empty-string id. -/
theorem credits_id_overwritten_witness :
    (creditPerson noUriCredit).id = some [] := by
  exact (credits_id_overwritten noUriCredit none rfl).1

/-- C10 counterexample: the media-type value `未知` is accepted by the
constructor (no raise) yet selects neither media-type branch, so both
endpoints reach the else-branch and return the empty-list fallback — even
though both chain results are present and non-empty, so the `[]` can come
from no other branch.  The else-branch is therefore reachable. -/
theorem valid_unknown_reaches_empty_fallback :
    MediaType.ofString "未知".toList = Except.ok MediaType.unknown ∧
    douban_credits "未知".toList (some [creditSample])
      (some [creditSample]) = Except.ok [] ∧
    douban_recommend "未知".toList (some [placeholderMovie])
      (some [placeholderMovie]) = Except.ok [] ∧
    [creditSample].isEmpty = false ∧
    [placeholderMovie].isEmpty = false := by
  exact ⟨rfl, rfl, rfl, rfl, rfl⟩

/-- C10 amended: for `douban_credits` and `douban_recommend`, a `type_name`
that is not any valid media-type value makes the (spec-modelled) `MediaType`
constructor raise — an `Except.error` — before any media-type branch runs,
so neither endpoint ever returns the empty-list fallback (or any `ok`
result) for an unrecognized media-type string; the else-branch is
nevertheless reachable, not dead: a valid media-type value that is neither
movie nor TV selects it, and then both endpoints return the empty list. -/
theorem unknown_type_name_raises (tn : Str)
    (h1 : tn ≠ "电影".toList) (h2 : tn ≠ "电视剧".toList)
    (h3 : tn ≠ "未知".toList) :
    (∀ mc tc, douban_credits tn mc tc = Except.error tn) ∧
    (∀ mr tr, douban_recommend tn mr tr = Except.error tn) ∧
    (∀ mc tc ps, douban_credits tn mc tc ≠ Except.ok ps) ∧
    (∀ mr tr ms, douban_recommend tn mr tr ≠ Except.ok ms) ∧
    (∀ mc tc, douban_credits "未知".toList mc tc = Except.ok []) ∧
    (∀ mr tr, douban_recommend "未知".toList mr tr = Except.ok []) := by
  have hmt : MediaType.ofString tn = Except.error tn := by
    unfold MediaType.ofString
    rw [if_neg h1, if_neg h2, if_neg h3]
  refine ⟨?_, ?_, ?_, ?_, ?_, ?_⟩
  · intro mc tc
    unfold douban_credits
    rw [hmt]
  · intro mr tr
    unfold douban_recommend
    rw [hmt]
  · intro mc tc ps hcon
    unfold douban_credits at hcon
    rw [hmt] at hcon
    cases hcon
  · intro mr tr ms hcon
    unfold douban_recommend at hcon
    rw [hmt] at hcon
    cases hcon
  · intro mc tc
    rfl
  · intro mr tr
    rfl

/-- C10 amended witness: the concrete unrecognized string `anime` makes both
endpoints raise, while the concrete neither-branch value `未知` yields the
empty-list fallback. -/
theorem unknown_type_name_raises_witness :
    douban_credits "anime".toList none none = Except.error "anime".toList ∧
    douban_recommend "anime".toList none none =
      Except.error "anime".toList ∧
    douban_credits "未知".toList none none = Except.ok [] ∧
    douban_recommend "未知".toList none none = Except.ok [] := by
  have h := unknown_type_name_raises "anime".toList (by decide) (by decide)
    (by decide)
  exact ⟨h.1 none none, h.2.1 none none, h.2.2.2.2.1 none none,
    h.2.2.2.2.2 none none⟩

end Douban
